import Mathlib

/-!
Verification development for the strudel sampler server
(`vite-plugin-strudel-sampler` / standalone sampler server).

The definitions below are a shallow embedding of the TypeScript source:
pure string helpers (`basename`, `extname`, `createSampleId`), the
directory scanner `collectSampleEntries` (stack-based walk over a modelled
filesystem tree), the single-slot TTL cache `createTTLCache`
(`ttlCacheGet` / `ttlClear`), the cached loaders `loadEntries` /
`createMetadataBuilder`, the `/files/*` path-traversal guard of both the
router and the legacy standalone server, and the `/` manifest and
`/stats` handlers.
-/

namespace Sampler

/-! ## String helpers (path.basename, path.extname, the id slug) -/

/-- Whitespace characters as matched by the JavaScript regex class `\s`
(restricted to the ASCII ones that can occur in file names). -/
def jsWhitespace (c : Char) : Bool :=
  c = ' ' || c = '\t' || c = '\n' || c = '\r' ||
  c = Char.ofNat 11 || c = Char.ofNat 12

/-- Characters kept by the filter regex `[^a-zA-Z0-9_.-]` in `createSampleId`. -/
def allowedChar (c : Char) : Bool :=
  ('a' ≤ c && c ≤ 'z') || ('A' ≤ c && c ≤ 'Z') || ('0' ≤ c && c ≤ '9') ||
  c = '_' || c = '.' || c = '-'

/-- Model of `.replace(/\s+/g, '_')` on a character list: every maximal run of
whitespace becomes a single underscore.  The boolean records whether the
previous character belonged to a whitespace run. -/
def replaceWsAux : Bool → List Char → List Char
  | _, [] => []
  | prevWs, c :: cs =>
    if jsWhitespace c then
      if prevWs then replaceWsAux true cs else '_' :: replaceWsAux true cs
    else
      c :: replaceWsAux false cs

/-- Model of `.replace(/\.[^.]+$/, '')`: drop a final dot followed by one or more
non-dot characters; leave the string unchanged when no such suffix exists. -/
def stripExtension (l : List Char) : List Char :=
  match l.reverse.span (fun c => c ≠ '.') with
  | (_, []) => l
  | ([], _ :: _) => l
  | (_ :: _, _ :: rest) => rest.reverse

/-- Split a character list on a separator character; like `String.splitOn`
for a single-character separator (adjacent separators yield empty pieces). -/
def splitOnChar (sep : Char) : List Char → List (List Char)
  | [] => [[]]
  | c :: cs =>
    if c = sep then [] :: splitOnChar sep cs
    else
      match splitOnChar sep cs with
      | [] => [[c]]
      | r :: rs => (c :: r) :: rs

/-- Model of `path.basename`: the last non-empty path component. -/
def basename (p : String) : String :=
  (((splitOnChar '/' p.toList).filter (fun s => s ≠ [])).getLastD p.toList).asString

/-- Model of `path.extname`: from the last dot of the basename to the end; empty when
the basename has no dot or starts with its only leading dot. -/
def extname (p : String) : String :=
  match (basename p).toList.reverse.span (fun c => c ≠ '.') with
  | (_, []) => ""
  | (sfxRev, _ :: preRev) =>
    if preRev.isEmpty then "" else ('.' :: sfxRev.reverse).asString

/-- The id slug applied to a base name, exactly as chained in the source:
`base.replace(/\s+/g, '_').replace(/[^a-zA-Z0-9_.-]/g, '').toLowerCase().replace(/\.[^.]+$/, '')`. -/
def sampleIdOfBase (base : String) : String :=
  (stripExtension (((replaceWsAux false base.toList).filter allowedChar).map
    Char.toLower)).asString

/-- Model of `createSampleId(fullPath)`: the slug of `path.basename(fullPath)`. -/
def createSampleId (fullPath : String) : String :=
  sampleIdOfBase (basename fullPath)

/-- The identifier formula as the spec words it, innermost first: remove
non-alphanumeric/dash/underscore/dot characters, then replace whitespace
with underscore, then strip the extension, then lowercase. -/
def specSampleId (base : String) : String :=
  ((stripExtension (replaceWsAux false (base.toList.filter allowedChar))).map
    Char.toLower).asString

/-- The identifier formula in the order the code actually applies it,
innermost first: replace whitespace with underscore, then remove
non-alphanumeric/dash/underscore/dot characters, then lowercase, then strip
the extension. -/
def specSampleIdAmended (base : String) : String :=
  (stripExtension (((replaceWsAux false base.toList).filter allowedChar).map
    Char.toLower)).asString

/-- Lowercase a string character by character, like
`String.prototype.toLowerCase` on the ASCII names involved here. -/
def toLowerStr (s : String) : String :=
  (s.toList.map Char.toLower).asString

/-! ## Audio recognition and the filesystem model -/

/-- The fixed extension allow-list `AUDIO_EXTENSIONS`. -/
def AUDIO_EXTENSIONS : List String :=
  [".mp3", ".wav", ".ogg", ".flac", ".m4a", ".aiff"]

/-- Model of `isAudio`: the extension, lowercased, is in the allow-list. -/
def isAudio (filePath : String) : Bool :=
  AUDIO_EXTENSIONS.contains (toLowerStr (extname filePath))

/-- Modelled filesystem tree.  A file carries the result of
`fs.promises.stat` (`none` when stat fails, otherwise the size); a directory
carries whether `fs.promises.readdir` succeeds on it, and its entries in
readdir order. -/
inductive FSTree where
  | file (name : String) (statSize : Option Nat) : FSTree
  | dir (name : String) (readable : Bool) (children : List FSTree) : FSTree

/-- Number of nodes in a list of trees (termination measure for the
stack-driven walk). -/
def sizeTrees : List FSTree → Nat
  | [] => 0
  | .file _ _ :: ts => 1 + sizeTrees ts
  | .dir _ _ cs :: ts => 1 + sizeTrees cs + sizeTrees ts

/-- Some directory among the given trees that the walk can reach through
readable ancestors is unreadable. -/
def hitsAny : List FSTree → Bool
  | [] => false
  | .file _ _ :: ts => hitsAny ts
  | .dir _ r cs :: ts => !r || hitsAny cs || hitsAny ts

/-- A scanned sample record. -/
structure SampleEntry where
  id : String
  relativePath : String
  absolutePath : String
  size : Nat
deriving Repr, DecidableEq

/-- A directory waiting on the scan stack: its path components relative to
the root, whether `readdir` succeeds on it, and its dirents. -/
structure PendingDir where
  rel : List String
  readable : Bool
  children : List FSTree

/-- Join path components with `/`. -/
def joinComps : List String → String
  | [] => ""
  | [c] => c
  | c :: cs => c ++ "/" ++ joinComps cs

/-- Measure of the whole stack. -/
def stackMeasure : List PendingDir → Nat
  | [] => 0
  | d :: rest => 1 + sizeTrees d.children + stackMeasure rest

/-- Process the dirents of the directory at `rel` (in readdir order):
subdirectories become pending stack pushes, audio files become
`SampleEntry` records (size 0 when stat fails), everything else is skipped. -/
def processDirents (rootAbs : String) (rel : List String) :
    List FSTree → List PendingDir × List SampleEntry
  | [] => ([], [])
  | .dir n r cs :: ts =>
    let rest := processDirents rootAbs rel ts
    (⟨rel ++ [n], r, cs⟩ :: rest.1, rest.2)
  | .file n statSize :: ts =>
    let rest := processDirents rootAbs rel ts
    let fullPath := rootAbs ++ "/" ++ joinComps (rel ++ [n])
    if isAudio fullPath then
      (rest.1,
        { id := createSampleId fullPath
          relativePath := joinComps (rel ++ [n])
          absolutePath := fullPath
          size := statSize.getD 0 } :: rest.2)
    else
      (rest.1, rest.2)

/-- The scan loop of `collectSampleEntries`: pop a pending directory off the
stack; `readdir` fails on an unreadable directory and aborts the whole walk
(there is no try/catch around `readdir` in the source); otherwise push its
subdirectories and append its audio files to the accumulated entries. -/
def go (rootAbs : String) : List PendingDir → List SampleEntry →
    Except String (List SampleEntry)
  | [], entries => .ok entries
  | d :: rest, entries =>
    if d.readable then
      let processed := processDirents rootAbs d.rel d.children
      go rootAbs (processed.1.reverse ++ rest) (entries ++ processed.2)
    else
      .error "EACCES: permission denied"
termination_by stack _ => stackMeasure stack
decreasing_by
  have happ : ∀ a b : List PendingDir,
      stackMeasure (a ++ b) = stackMeasure a + stackMeasure b := by
    intro a b
    induction a with
    | nil => simp [stackMeasure]
    | cons x rest2 ih => simp [stackMeasure, ih]; omega
  have hrev : ∀ a : List PendingDir,
      stackMeasure a.reverse = stackMeasure a := by
    intro a
    induction a with
    | nil => rfl
    | cons x rest2 ih =>
      simp [stackMeasure, List.reverse_cons, happ, ih]
      omega
  have hpd : ∀ (rel : List String) (ts : List FSTree),
      stackMeasure (processDirents rootAbs rel ts).1 ≤ sizeTrees ts := by
    intro rel ts
    induction ts with
    | nil => simp [processDirents, stackMeasure, sizeTrees]
    | cons t ts ih =>
      cases t with
      | dir n r cs =>
        simp [processDirents, stackMeasure, sizeTrees]
        omega
      | file n fsz =>
        simp only [processDirents, sizeTrees]
        split <;> simp <;> omega
  simp only [happ, hrev, stackMeasure]
  have h := hpd d.rel d.children
  omega

/-- Model of `collectSampleEntries(root)`: iterative walk with an explicit stack,
starting from the root directory (whose existence `ensureSampleRoot`
guarantees); `readable` and `children` describe the root itself. -/
def collectSampleEntries (rootAbs : String) (readable : Bool)
    (children : List FSTree) : Except String (List SampleEntry) :=
  go rootAbs [⟨[], readable, children⟩] []

/-- Whether an `Except` result is a success. -/
def exceptOk {ε α : Type} : Except ε α → Bool
  | .ok _ => true
  | .error _ => false

/-! ## The single-slot TTL cache (`createTTLCache`) -/

/-- The stored slot: `{ value, expires }`. -/
structure CacheSlot (T : Type) where
  value : T
  expires : Nat
deriving Repr, DecidableEq

/-- The mutable closure variable `cache`: `null` or one slot. -/
abbrev CacheState (T : Type) := Option (CacheSlot T)

/-- Observable outcome of one `get` call: the returned value, the state of
the `cache` variable when the call returns, and whether the factory ran. -/
structure GetResult (T : Type) where
  value : T
  state : CacheState T
  invoked : Bool
deriving Repr, DecidableEq

/-- The slot assignment performed after the factory completes:
`if (ttl > 0) cache = { value, expires: Date.now() + ttl }; else cache = null`. -/
def ttlStore {T : Type} (ttl tStore : Nat) (value : T) : CacheState T :=
  if 0 < ttl then some ⟨value, tStore + ttl⟩ else none

/-- Model of `createTTLCache(ttl).get(factory)`.  `tCheck` and `tStore` are the values
of the two `Date.now()` calls (expiry check, store).  The factory may itself
mutate the cache variable, so it maps the state it observes to a value and a
new state; but the code assigns `cache` unconditionally after `await
factory()`, so the factory's own mutation `(factory st).2` is overwritten
before `get` returns. -/
def ttlCacheGet {T : Type} (ttl tCheck tStore : Nat) (st : CacheState T)
    (factory : CacheState T → T × CacheState T) : GetResult T :=
  match st with
  | some c =>
    if 0 < ttl ∧ tCheck < c.expires then ⟨c.value, some c, false⟩
    else ⟨(factory st).1, ttlStore ttl tStore (factory st).1, true⟩
  | none => ⟨(factory st).1, ttlStore ttl tStore (factory st).1, true⟩

/-- Model of `get` with a factory that only produces a value (the common case:
`() => collectSampleEntries(root)`). -/
def ttlGet {T : Type} (ttl tCheck tStore : Nat) (st : CacheState T)
    (value : T) : GetResult T :=
  ttlCacheGet ttl tCheck tStore st (fun s => (value, s))

/-- Model of `clear()`: unconditionally drop the stored value. -/
def ttlClear {T : Type} : CacheState T → CacheState T := fun _ => none

/-! ## The cached loaders (`loadEntries`, `createMetadataBuilder`) -/

/-- Model of `loadEntries`: `samplesCache.get(scan)` followed by the size-bound check
`if (cacheMaxSize > 0 && entries.length > cacheMaxSize) samplesCache.clear()`.
`scanResult` is the list the factory (the scan) produces. -/
def loadEntriesStep (cacheMaxSize ttl tCheck tStore : Nat)
    (st : CacheState (List SampleEntry)) (scanResult : List SampleEntry) :
    GetResult (List SampleEntry) :=
  let r := ttlGet ttl tCheck tStore st scanResult
  { r with
    state :=
      if 0 < cacheMaxSize ∧ cacheMaxSize < r.value.length then ttlClear r.state
      else r.state }

/-! ## Metadata extraction (`createMetadataBuilder`) -/

/-- The fields of `metadata.format` that `mm.parseFile` yields; each may be
absent. -/
structure MMFormat where
  duration : Option Nat
  container : Option String
  sampleRate : Option Nat
  channels : Option Nat
deriving Repr, DecidableEq

/-- One metadata record. -/
structure MetadataResult where
  id : String
  path : String
  duration : Option Nat
  format : Option String
  sampleRate : Option Nat
  channels : Option Nat
  size : Nat
deriving Repr, DecidableEq

/-- Model of `fallbackFormat`:
`const ext = path.extname(entry.absolutePath).slice(1); return ext.length ? ext : null;`. -/
def fallbackFormat (absolutePath : String) : Option String :=
  let ext := (extname absolutePath).toList.drop 1
  if ext.isEmpty then none else some ext.asString

/-- The per-entry body of the metadata loop: `extract` models
`mm.parseFile(entry.absolutePath, ...)` (`none` when it throws), the `catch`
branch produces the degraded record. -/
def metadataFor (extract : String → Option MMFormat) (e : SampleEntry) :
    MetadataResult :=
  match extract e.absolutePath with
  | some m =>
    { id := e.id
      path := e.relativePath
      duration := m.duration
      format := (m.container).orElse (fun _ => fallbackFormat e.absolutePath)
      sampleRate := m.sampleRate
      channels := m.channels
      size := e.size }
  | none =>
    { id := e.id
      path := e.relativePath
      duration := none
      format := fallbackFormat e.absolutePath
      sampleRate := none
      channels := none
      size := e.size }

/-- The `for (const entry of entries)` loop pushing one record per entry. -/
def buildMetadata (extract : String → Option MMFormat)
    (entries : List SampleEntry) : List MetadataResult :=
  entries.map (metadataFor extract)

/-- The factory passed to `metadataCache.get` in `createMetadataBuilder`:
builds the records from the loaded entries, and calls `cache.clear()` when
the result exceeds `cacheMaxSize`. -/
def metadataFactory (cacheMaxSize : Nat) (extract : String → Option MMFormat)
    (entries : List SampleEntry) (st : CacheState (List MetadataResult)) :
    List MetadataResult × CacheState (List MetadataResult) :=
  let results := buildMetadata extract entries
  (results,
    if 0 < cacheMaxSize ∧ cacheMaxSize < results.length then ttlClear st
    else st)

/-- One call of the function `createMetadataBuilder` returns:
`cache.get(async () => { ... })` with the factory above. -/
def loadMetadataStep (cacheMaxSize ttl tCheck tStore : Nat)
    (st : CacheState (List MetadataResult)) (entries : List SampleEntry)
    (extract : String → Option MMFormat) : GetResult (List MetadataResult) :=
  ttlCacheGet ttl tCheck tStore st (metadataFactory cacheMaxSize extract entries)

/-! ## Invalidation (`invalidateCaches`) -/

/-- The two cache instances owned by one router. -/
structure RouterCaches where
  samplesCache : CacheState (List SampleEntry)
  metadataCache : CacheState (List MetadataResult)

/-- Model of `invalidateCaches`: `samplesCache.clear(); metadataCache.clear();`. -/
def invalidateCaches (s : RouterCaches) : RouterCaches :=
  { samplesCache := ttlClear s.samplesCache
    metadataCache := ttlClear s.metadataCache }

/-! ## Path resolution and the `/files/*` guards -/

/-- Split an absolute-or-relative path string into its non-empty `/`
separated components. -/
def splitPath (s : String) : List String :=
  ((splitOnChar '/' s.toList).filter (fun c => c ≠ [])).map List.asString

/-- Path normalization over components: drop `.`, let `..` pop the previous
component (clamping at the root, as Node does for absolute paths). -/
def normComps (comps : List String) : List String :=
  comps.foldl
    (fun acc c =>
      if c = "." then acc
      else if c = ".." then acc.dropLast
      else acc ++ [c])
    []

/-- Render components as an absolute path. -/
def joinAbs (comps : List String) : String := "/" ++ joinComps comps

/-- Whether the string starts with a `/`. -/
def startsWithSlash (s : String) : Bool :=
  match s.toList with
  | '/' :: _ => true
  | _ => false

/-- Model of `path.resolve(root, rel)` with `root` an absolute normalized path: an
absolute `rel` wins, otherwise `rel` is resolved against `root`. -/
def pathResolve (root rel : String) : String :=
  if startsWithSlash rel then joinAbs (normComps (splitPath rel))
  else joinAbs (normComps (splitPath root ++ splitPath rel))

/-- Model of `path.join(root, rel)` with `root` an absolute path: concatenate, then
normalize. -/
def pathJoin (root rel : String) : String :=
  joinAbs (normComps (splitPath root ++ splitPath rel))

/-- String prefix test (`String.prototype.startsWith`). -/
def strStartsWith (a b : String) : Bool := a.toList.isPrefixOf b.toList

/-- Model of `rootPrefix`: the root with a trailing separator appended unless already
present. -/
def rootPrefixOf (root : String) : String :=
  if root.toList.getLast? = some '/' then root else root ++ "/"

/-- Observable outcome of a `/files/*` request. -/
inductive FileResponse where
  | denied
  | notFound
  | stream (path : String)
deriving Repr, DecidableEq

/-- The router's `/files/*` handler (part_002): resolve against the root,
reject with 403 unless the resolved path equals the root or extends
`rootPrefix`; 404 unless it is an existing file; otherwise stream it.
`isFile` models `fs.existsSync(resolved) && fs.statSync(resolved).isFile()`. -/
def filesHandler (root rel : String) (isFile : String → Bool) : FileResponse :=
  let resolved := pathResolve root rel
  if resolved ≠ root ∧ ¬ strStartsWith (rootPrefixOf root) resolved then .denied
  else if ¬ isFile resolved then .notFound
  else .stream resolved

/-- The legacy standalone server's `/files/*` handler
(vite-plugin-strudel-sampler.ts): `path.join` then a bare
`full.startsWith(SAMPLE_ROOT)` check, with no separator requirement.
`fileExists` models `fs.existsSync(full)`. -/
def legacyFilesHandler (root rel : String) (fileExists : String → Bool) :
    FileResponse :=
  let full := pathJoin root rel
  if ¬ strStartsWith root full then .denied
  else if ¬ fileExists full then .notFound
  else .stream full

/-! ## Manifest (`router.get('/')`) and stats (`router.get('/stats')`) -/

/-- JavaScript object assignment `payload[k] = v`: overwrite in place when
the key exists, append otherwise. -/
def objInsert (obj : List (String × String)) (k v : String) :
    List (String × String) :=
  if (obj.map Prod.fst).contains k then
    obj.map (fun p => if p.1 = k then (k, v) else p)
  else obj ++ [(k, v)]

/-- The `/` handler's payload: `{ _base: base }` then
`payload[entry.id] = entry.relativePath` for each entry in order. -/
def buildManifestPayload (base : String) (entries : List SampleEntry) :
    List (String × String) :=
  entries.foldl (fun acc e => objInsert acc e.id e.relativePath)
    [("_base", base)]

/-- The `/stats` handler's body. -/
structure StatsResponse where
  total : Nat
  root : String
  port : Option Nat
deriving Repr, DecidableEq

/-- Model of `/stats`: `{ total: entries.length, root: normalizedRoot, port: port ?? null }`. -/
def statsHandler (entries : List SampleEntry) (root : String)
    (port : Option Nat) : StatsResponse :=
  { total := entries.length, root := root, port := port }

/-! ## Theorems for the claims -/



theorem processDirents_any (rootAbs : String) (rel : List String)
    (ts : List FSTree) :
    ((processDirents rootAbs rel ts).1.any
      fun d => !d.readable || hitsAny d.children) = hitsAny ts := by
  induction ts with
  | nil => simp [processDirents, hitsAny]
  | cons t ts ih =>
    cases t with
    | dir n r cs => simp [processDirents, hitsAny, ih, Bool.or_assoc]
    | file n s =>
      simp only [processDirents, hitsAny]
      split <;> simpa using ih

theorem go_ok_iff (rootAbs : String) (stack : List PendingDir)
    (entries : List SampleEntry) :
    exceptOk (go rootAbs stack entries) =
      !(stack.any fun d => !d.readable || hitsAny d.children) := by
  induction stack, entries using go.induct rootAbs with
  | case1 entries => simp [go, exceptOk]
  | case2 d rest entries hr processed ih =>
    rw [go]
    simp only [hr, if_pos]
    rw [ih]
    unfold processed
    simp [List.any_append, List.any_reverse, processDirents_any, hr]
  | case3 d rest entries hr =>
    rw [go]
    simp [hr, exceptOk]

/-- C2, counterexample: a readable root with an unreadable subdirectory and
one audio file.  The claim predicts the scan skips the subdirectory and
succeeds; the code aborts the whole scan with the readdir error. -/
theorem c2_unreadable_subdir_cex :
    collectSampleEntries "/samples" true
      [.dir "locked" false [], .file "kick.wav" (some 100)] =
      .error "EACCES: permission denied" := by
  simp +decide [collectSampleEntries, go, processDirents]

/-- C2 (amended): an unreadable subdirectory is not skipped — the scan
succeeds exactly when the root is readable and no directory reachable
through readable ancestors is unreadable; otherwise `collectSampleEntries`
fails as a whole and the error is surfaced to its caller. -/
theorem c2_scan_fails_on_unreadable (rootAbs : String) (readable : Bool)
    (children : List FSTree) :
    exceptOk (collectSampleEntries rootAbs readable children) =
      (readable && !hitsAny children) := by
  rw [collectSampleEntries, go_ok_iff]
  cases readable <;> simp

/-- C3, counterexample: the spec's operation order (remove disallowed
characters before replacing whitespace) deletes spaces instead of turning
them into underscores, so it disagrees with the code on the spec's own
acceptance input. -/
theorem c3_sampleId_order_cex :
    createSampleId "Kick Deep 95gm.wav" = "kick_deep_95gm" ∧
    specSampleId "Kick Deep 95gm.wav" = "kickdeep95gm" ∧
    createSampleId "Kick Deep 95gm.wav" ≠
      specSampleId "Kick Deep 95gm.wav" := by
  refine ⟨by decide, by decide, by decide⟩

/-- C3 (amended): the identifier is
`strip_extension(lowercase(remove_non_alnum_dash_underscore_dot(replace_whitespace_with_underscore(basename))))`,
innermost first — whitespace is replaced before removal, and lowercasing
happens before the extension strip — and it is a deterministic pure
function of the base name only. -/
theorem c3_sampleId_amended (p : String) :
    createSampleId p = specSampleIdAmended (basename p) ∧
    ∀ q, basename q = basename p → createSampleId q = createSampleId p := by
  refine ⟨rfl, ?_⟩
  intro q hq
  simp [createSampleId, hq]

theorem c3_sampleId_amended_witness :
    createSampleId "/a/Kick Deep 95gm.wav" =
      specSampleIdAmended (basename "/a/Kick Deep 95gm.wav") ∧
    createSampleId "/b/Kick Deep 95gm.wav" =
      createSampleId "/a/Kick Deep 95gm.wav" :=
  ⟨(c3_sampleId_amended "/a/Kick Deep 95gm.wav").1,
   (c3_sampleId_amended "/a/Kick Deep 95gm.wav").2 "/b/Kick Deep 95gm.wav"
     (by decide)⟩

/-- C4: the TTL cache `get` contract — a live stored value (ttl positive,
`now < expiresAt`) is returned without invoking the factory; otherwise the
factory runs, the result is returned, and it is stored with expiry
`now + ttl` exactly when `ttl > 0` (never stored when `ttl = 0`); with
`ttl = 0` every call invokes the factory and leaves the cache empty. -/
theorem c4_ttlGet_contract (T : Type) (ttl tCheck tStore : Nat)
    (st : CacheState T) (v : T) :
    (∀ c, st = some c → 0 < ttl → tCheck < c.expires →
      ttlGet ttl tCheck tStore st v = ⟨c.value, some c, false⟩) ∧
    ((st = none ∨ ttl = 0 ∨ ∃ c, st = some c ∧ c.expires ≤ tCheck) →
      ttlGet ttl tCheck tStore st v =
        ⟨v, if 0 < ttl then some ⟨v, tStore + ttl⟩ else none, true⟩) ∧
    (ttl = 0 →
      (ttlGet ttl tCheck tStore st v).invoked = true ∧
      (ttlGet ttl tCheck tStore st v).state = none) := by
  refine ⟨?_, ?_, ?_⟩
  · intro c hc hpos hlt
    subst hc
    simp [ttlGet, ttlCacheGet, hpos, hlt]
  · intro h
    cases st with
    | none => simp [ttlGet, ttlCacheGet, ttlStore]
    | some c =>
      have hcond : ¬(0 < ttl ∧ tCheck < c.expires) := by
        rcases h with h | h | ⟨c2, hc2, hle⟩
        · exact absurd h (by simp)
        · omega
        · obtain rfl : c2 = c := by injection hc2.symm
          omega
      simp [ttlGet, ttlCacheGet, ttlStore, hcond]
  · intro h0
    subst h0
    cases st <;> simp [ttlGet, ttlCacheGet, ttlStore]

theorem c4_ttlGet_contract_witness :
    ttlGet 5 3 0 (some ⟨9, 10⟩) (7 : Nat) = ⟨9, some ⟨9, 10⟩, false⟩ ∧
    ttlGet 5 0 0 (none : CacheState Nat) 7 =
      ⟨7, if 0 < 5 then some ⟨7, 0 + 5⟩ else none, true⟩ :=
  ⟨(c4_ttlGet_contract Nat 5 3 0 (some ⟨9, 10⟩) 7).1 ⟨9, 10⟩ rfl (by decide)
      (by decide),
   (c4_ttlGet_contract Nat 5 0 0 none 7).2.1 (Or.inl rfl)⟩

/-- C5: `clear()` unconditionally drops the stored value, so the very next
`get` invokes the factory whatever the clock and TTL say; and
`invalidateCaches` clears the scan cache and the metadata cache together. -/
theorem c5_clear_contract (T : Type) (ttl tCheck tStore : Nat)
    (st : CacheState T) (v : T) (rc : RouterCaches) :
    ttlClear st = none ∧
    (ttlGet ttl tCheck tStore (ttlClear st) v).invoked = true ∧
    (ttlGet ttl tCheck tStore (ttlClear st) v).value = v ∧
    (invalidateCaches rc).samplesCache = none ∧
    (invalidateCaches rc).metadataCache = none := by
  refine ⟨rfl, ?_, ?_, rfl, rfl⟩ <;> simp [ttlGet, ttlCacheGet, ttlClear]


/-- C6: the metadata builder is total — one record per input entry, same
order, corresponding by id; a failed extraction yields the degraded record
(`duration`, `sampleRate`, `channels` null and `format` the extension
without its dot, or null) and never aborts the rest of the batch. -/
theorem c6_metadata_totality (extract : String → Option MMFormat)
    (entries : List SampleEntry) :
    (buildMetadata extract entries).length = entries.length ∧
    ∀ (i : Nat) (e : SampleEntry), entries[i]? = some e →
      ∃ r, (buildMetadata extract entries)[i]? = some r ∧ r.id = e.id ∧
        (extract e.absolutePath = none →
          r = ⟨e.id, e.relativePath, none, fallbackFormat e.absolutePath,
               none, none, e.size⟩) := by
  refine ⟨by simp [buildMetadata], ?_⟩
  intro i e he
  refine ⟨metadataFor extract e, ?_, ?_, ?_⟩
  · simp [buildMetadata, he]
  · cases hx : extract e.absolutePath <;> simp [metadataFor, hx]
  · intro hx
    simp [metadataFor, hx]

theorem c6_metadata_totality_witness :
    ∃ r,
      (buildMetadata (fun _ => none)
        [⟨"kick", "kick.wav", "/samples/kick.wav", 100⟩])[0]? = some r ∧
      r.id = "kick" := by
  obtain ⟨r, h1, h2, _⟩ :=
    (c6_metadata_totality (fun _ => none)
      [⟨"kick", "kick.wav", "/samples/kick.wav", 100⟩]).2 0
      ⟨"kick", "kick.wav", "/samples/kick.wav", 100⟩ rfl
  exact ⟨r, h1, h2⟩

/-- C7, counterexample: on the legacy standalone server's `/files/*`
handler, the request `../samplesfoo/x.wav` against root `/samples` resolves
to `/samplesfoo/x.wav`, which neither equals the root nor extends
`root + '/'`; the claim says such a request is rejected, but the bare
`startsWith(root)` check lets it through and the file is streamed. -/
theorem c7_legacy_guard_cex :
    pathJoin "/samples" "../samplesfoo/x.wav" = "/samplesfoo/x.wav" ∧
    ("/samplesfoo/x.wav" : String) ≠ "/samples" ∧
    strStartsWith (rootPrefixOf "/samples") "/samplesfoo/x.wav" = false ∧
    legacyFilesHandler "/samples" "../samplesfoo/x.wav"
      (fun p => p = "/samplesfoo/x.wav") = .stream "/samplesfoo/x.wav" := by
  refine ⟨by decide, by decide, by decide, by decide⟩

/-- C7 (amended): the router's `/files/*` handler satisfies the guard as
claimed — any request whose resolved path neither equals the root nor
extends `root + '/'` is denied and never streamed; the legacy standalone
handler only rejects paths that fail a bare `startsWith(root)` check (no
separator), though the `../../etc/passwd` example is denied by both. -/
theorem c7_files_guard_amended :
    (∀ root rel isFile,
      pathResolve root rel ≠ root →
      strStartsWith (rootPrefixOf root) (pathResolve root rel) = false →
      filesHandler root rel isFile = .denied) ∧
    (∀ root rel fe, strStartsWith root (pathJoin root rel) = false →
      legacyFilesHandler root rel fe = .denied) ∧
    (∀ fe, legacyFilesHandler "/samples" "../../etc/passwd" fe = .denied) := by
  refine ⟨?_, ?_, ?_⟩
  · intro root rel isFile hne hpre
    simp [filesHandler, hne, hpre]
  · intro root rel fe hpre
    simp [legacyFilesHandler, hpre]
  · intro fe
    simp +decide [legacyFilesHandler]

theorem c7_files_guard_amended_witness :
    filesHandler "/samples" "../../etc/passwd" (fun _ => true) = .denied ∧
    legacyFilesHandler "/samples" "../../etc/passwd" (fun _ => true) =
      .denied :=
  ⟨c7_files_guard_amended.1 "/samples" "../../etc/passwd" (fun _ => true)
      (by decide) (by decide),
   c7_files_guard_amended.2.2 (fun _ => true)⟩


/-- C8, counterexample: with `cacheTTL = 10` and `cacheMaxSize = 2`, a scan
producing 3 entries clears the scan cache right after the first
`listEntries()` call, so a second call 1ms later — well inside the TTL
window, no filesystem change — runs the recompute again, contradicting the
claim that the recompute is not invoked a second time. -/
theorem c8_idempotence_overflow_cex :
    (1 : Nat) < 0 + 10 ∧
    (loadEntriesStep 2 10 0 0 none
        [⟨"a", "a.wav", "/samples/a.wav", 1⟩,
         ⟨"b", "b.wav", "/samples/b.wav", 1⟩,
         ⟨"c", "c.wav", "/samples/c.wav", 1⟩]).value =
      [⟨"a", "a.wav", "/samples/a.wav", 1⟩,
       ⟨"b", "b.wav", "/samples/b.wav", 1⟩,
       ⟨"c", "c.wav", "/samples/c.wav", 1⟩] ∧
    (loadEntriesStep 2 10 1 1
        (loadEntriesStep 2 10 0 0 none
          [⟨"a", "a.wav", "/samples/a.wav", 1⟩,
           ⟨"b", "b.wav", "/samples/b.wav", 1⟩,
           ⟨"c", "c.wav", "/samples/c.wav", 1⟩]).state
        [⟨"a", "a.wav", "/samples/a.wav", 1⟩,
         ⟨"b", "b.wav", "/samples/b.wav", 1⟩,
         ⟨"c", "c.wav", "/samples/c.wav", 1⟩]).invoked = true := by
  refine ⟨by decide, by decide, by decide⟩

/-- C8 (amended): for every TTL `t > 0`, when the scan result does not
exceed `cacheMaxSize` (or the size bound is disabled), calling
`listEntries()` twice within the TTL window with no filesystem change
returns the identical sequence and does not invoke the recompute a second
time. -/
theorem c8_idempotence_amended (ttl maxSize t1c t1s t2c t2s : Nat)
    (scanResult : List SampleEntry) (hpos : 0 < ttl)
    (hsize : maxSize = 0 ∨ scanResult.length ≤ maxSize)
    (hwin : t2c < t1s + ttl) :
    (loadEntriesStep maxSize ttl t1c t1s none scanResult).value =
      scanResult ∧
    (loadEntriesStep maxSize ttl t2c t2s
        (loadEntriesStep maxSize ttl t1c t1s none scanResult).state
        scanResult).value = scanResult ∧
    (loadEntriesStep maxSize ttl t2c t2s
        (loadEntriesStep maxSize ttl t1c t1s none scanResult).state
        scanResult).invoked = false := by
  have hover : ¬(0 < maxSize ∧ maxSize < scanResult.length) := by
    rcases hsize with h | h <;> omega
  simp [loadEntriesStep, ttlGet, ttlCacheGet, ttlStore, ttlClear, hpos,
    hover, hwin]

theorem c8_idempotence_amended_witness :
    (0 : Nat) < 10 ∧
    (loadEntriesStep 2 10 5 5
        (loadEntriesStep 2 10 0 0 none
          [⟨"a", "a.wav", "/samples/a.wav", 1⟩]).state
        [⟨"a", "a.wav", "/samples/a.wav", 1⟩]).invoked = false :=
  ⟨by decide,
   (c8_idempotence_amended 10 2 0 0 5 5
      [⟨"a", "a.wav", "/samples/a.wav", 1⟩] (by decide)
      (Or.inr (by decide)) (by decide)).2.2⟩

/-- C1: the size bound works for the scan cache but not for the metadata
cache.  With `cacheMaxSize = 2`, a scan of 3 entries leaves the scan cache
empty after `loadEntries` (as the claim states), but after one
`listMetadata()` the metadata cache still holds the oversized 3-record
value — the factory's `cache.clear()` is overwritten by `get`'s
unconditional store — so a second call within the TTL serves it from the
cache without recomputing. -/
theorem c1_size_overflow_divergence :
    (loadEntriesStep 2 10 0 0 none
        [⟨"a", "a.wav", "/samples/a.wav", 1⟩,
         ⟨"b", "b.wav", "/samples/b.wav", 1⟩,
         ⟨"c", "c.wav", "/samples/c.wav", 1⟩]).state = none ∧
    (loadMetadataStep 2 10 0 0 none
        [⟨"a", "a.wav", "/samples/a.wav", 1⟩,
         ⟨"b", "b.wav", "/samples/b.wav", 1⟩,
         ⟨"c", "c.wav", "/samples/c.wav", 1⟩] (fun _ => none)).state =
      some ⟨buildMetadata (fun _ => none)
        [⟨"a", "a.wav", "/samples/a.wav", 1⟩,
         ⟨"b", "b.wav", "/samples/b.wav", 1⟩,
         ⟨"c", "c.wav", "/samples/c.wav", 1⟩], 10⟩ ∧
    (loadMetadataStep 2 10 1 1
        (loadMetadataStep 2 10 0 0 none
          [⟨"a", "a.wav", "/samples/a.wav", 1⟩,
           ⟨"b", "b.wav", "/samples/b.wav", 1⟩,
           ⟨"c", "c.wav", "/samples/c.wav", 1⟩] (fun _ => none)).state
        [⟨"a", "a.wav", "/samples/a.wav", 1⟩,
         ⟨"b", "b.wav", "/samples/b.wav", 1⟩,
         ⟨"c", "c.wav", "/samples/c.wav", 1⟩] (fun _ => none)).invoked =
      false := by
  refine ⟨by decide, by decide, by decide⟩


theorem keys_objInsert (obj : List (String × String)) (k v : String) :
    (objInsert obj k v).map Prod.fst =
      if (obj.map Prod.fst).contains k then obj.map Prod.fst
      else obj.map Prod.fst ++ [k] := by
  unfold objInsert
  split
  · next h =>
    simp only [h, if_pos, List.map_map]
    refine List.map_congr_left ?_
    intro p _
    by_cases hp : p.1 = k <;> simp [hp]
  · next h => simp [h]

theorem payload_keys_nodup (entries : List SampleEntry)
    (obj : List (String × String)) (h : (obj.map Prod.fst).Nodup) :
    ((entries.foldl (fun acc e => objInsert acc e.id e.relativePath)
      obj).map Prod.fst).Nodup := by
  induction entries generalizing obj with
  | nil => simpa using h
  | cons e entries ih =>
    simp only [List.foldl_cons]
    refine ih _ ?_
    rw [keys_objInsert]
    split
    · exact h
    · next hk =>
      simp at hk
      simp [List.nodup_append, h, hk]

theorem payload_keys_mem (entries : List SampleEntry)
    (obj : List (String × String)) (a : String)
    (h : a ∈ (entries.foldl (fun acc e => objInsert acc e.id e.relativePath)
      obj).map Prod.fst) :
    a ∈ obj.map Prod.fst ∨ a ∈ entries.map SampleEntry.id := by
  induction entries generalizing obj with
  | nil => simpa using h
  | cons e entries ih =>
    simp only [List.foldl_cons] at h
    rcases ih _ h with hin | hin
    · rw [keys_objInsert] at hin
      split at hin
      · exact Or.inl hin
      · rcases List.mem_append.1 hin with hl | hr
        · exact Or.inl hl
        · simp at hr
          simp [hr]
    · simp [hin]



theorem dedup_length_lt_of_not_nodup (l : List String) (h : ¬ l.Nodup) :
    l.dedup.length < l.length := by
  have hs := l.dedup_sublist
  rcases Nat.lt_or_ge l.dedup.length l.length with hlt | hge
  · exact hlt
  · exact absurd (List.nodup_dedup l)
      (by rw [hs.eq_of_length (le_antisymm hs.length_le hge)]; exact h)

/-- C10: the `/stats` total counts the full scanned list (collisions
included), while the `/` manifest object keys samples by id with
last-scanned-wins overwrite; so whenever the entry list contains duplicate
ids, `stats.total` strictly exceeds the number of sample keys in the
manifest object (all keys except the `_base` slot). -/
theorem c10_stats_vs_manifest (base root : String) (port : Option Nat)
    (entries : List SampleEntry) :
    (statsHandler entries root port).total = entries.length ∧
    (¬ (entries.map SampleEntry.id).Nodup →
      (buildManifestPayload base entries).length - 1 <
        (statsHandler entries root port).total) := by
  refine ⟨rfl, ?_⟩
  intro hdup
  have hnd : ((buildManifestPayload base entries).map Prod.fst).Nodup :=
    payload_keys_nodup entries [("_base", base)] (by simp)
  have hsub : ((buildManifestPayload base entries).map Prod.fst).toFinset ⊆
      insert "_base" (entries.map SampleEntry.id).toFinset := by
    intro a ha
    rw [List.mem_toFinset] at ha
    rcases payload_keys_mem entries _ a ha with h1 | h2
    · simp only [List.map_cons, List.map_nil, List.mem_singleton] at h1
      simp [h1]
    · simp [List.mem_toFinset, h2]
  have hcard :
      ((buildManifestPayload base entries).map Prod.fst).toFinset.card ≤
        1 + (entries.map SampleEntry.id).toFinset.card := by
    calc ((buildManifestPayload base entries).map Prod.fst).toFinset.card ≤
        (insert "_base" (entries.map SampleEntry.id).toFinset).card :=
          Finset.card_le_card hsub
      _ ≤ (entries.map SampleEntry.id).toFinset.card + 1 :=
          Finset.card_insert_le _ _
      _ = 1 + (entries.map SampleEntry.id).toFinset.card := by omega
  have heq :
      ((buildManifestPayload base entries).map Prod.fst).toFinset.card =
        (buildManifestPayload base entries).length := by
    rw [List.toFinset_card_of_nodup hnd, List.length_map]
  have hlt : (entries.map SampleEntry.id).toFinset.card <
      entries.length := by
    have := dedup_length_lt_of_not_nodup (entries.map SampleEntry.id) hdup
    have hcardeq : (entries.map SampleEntry.id).toFinset.card =
        (entries.map SampleEntry.id).dedup.length := rfl
    rw [hcardeq]
    simpa using this
  simp only [statsHandler]
  omega

theorem c10_stats_vs_manifest_witness :
    (buildManifestPayload "http://localhost:5432/files/"
        [⟨"kick", "a/kick.wav", "/samples/a/kick.wav", 1⟩,
         ⟨"kick", "b/kick.wav", "/samples/b/kick.wav", 2⟩]).length - 1 <
      (statsHandler
        [⟨"kick", "a/kick.wav", "/samples/a/kick.wav", 1⟩,
         ⟨"kick", "b/kick.wav", "/samples/b/kick.wav", 2⟩]
        "/samples" (some 5432)).total :=
  (c10_stats_vs_manifest "http://localhost:5432/files/" "/samples"
    (some 5432)
    [⟨"kick", "a/kick.wav", "/samples/a/kick.wav", 1⟩,
     ⟨"kick", "b/kick.wav", "/samples/b/kick.wav", 2⟩]).2 (by decide)

end Sampler
